import Mathlib

/-!
Verification of the document-vectorization pipeline
(`python-services/chunking.py`, `embedding_function.py`, `query_documents.py`,
`process_document.py`, `web_content_fetcher.py`, `chatbot_api.py`).

Modelling conventions:
* Python strings are modelled as `List Char` (`PyStr`); `len` is `List.length`,
  slicing is `List.take`, and string formatting is list concatenation.
* Python floats are modelled as exact rationals; the only float arithmetic the
  claims depend on (`max(0, 1 - d)`, padding with `0.0`) is exact there.
* A fallible Python call (a remote API, a database operation) is modelled as a
  value of `Except`: `Except.error` is a raised exception, and an absent
  `try`/`except` in the source is modelled by propagating the error.
* External collaborators (the embedding service, the vector engine, the HTML
  parser) are oracle parameters: the embedded functions are parametrised over
  their outcomes, while all control flow around them is translated from the
  source.
-/

namespace DocVec

/-- Python strings as character lists. -/
abbrev PyStr := List Char

/-- The whitespace test behind `str.strip()` (ASCII whitespace; the source
only feeds it text already decoded from documents). -/
def pyIsSpace (c : Char) : Bool :=
  c = ' ' || c = '\t' || c = '\n' || c = '\r' || c = '\x0b' || c = '\x0c'

/-- Python `not paragraph.strip()`: the paragraph consists only of
whitespace characters. -/
def isBlank (p : PyStr) : Bool := p.all pyIsSpace

/-- Python `text.split("\x5cn\x5cn")`: split at each leftmost, non-overlapping
occurrence of two consecutive newline characters. -/
def splitPar : PyStr → List PyStr
  | [] => [[]]
  | '\n' :: '\n' :: rest => [] :: splitPar rest
  | c :: rest =>
    match splitPar rest with
    | [] => [[c]]
    | g :: gs => (c :: g) :: gs

/-- Python `"\x5cn\x5cn".join(parts)`. -/
def sepJoin : List PyStr → PyStr
  | [] => []
  | [p] => p
  | p :: ps => p ++ '\n' :: '\n' :: sepJoin ps

/-- The paragraph-accumulation loop of `chunk_text` (`chunking.py`, lines
12-24): `cur` is `current_chunk`, `size` is `current_size`. -/
def chunkLoop (chunkSize : Nat) : List PyStr → List PyStr → Nat → List PyStr
  | [], cur, _ => if cur = [] then [] else [sepJoin cur]
  | p :: ps, cur, size =>
    if isBlank p then chunkLoop chunkSize ps cur size
    else if size + p.length > chunkSize ∧ cur ≠ [] then
      sepJoin cur :: chunkLoop chunkSize ps [p] p.length
    else
      chunkLoop chunkSize ps (cur ++ [p]) (size + p.length)

/-- `chunk_text(text, chunk_size)` from `chunking.py`: split into paragraphs,
accumulate them into chunks, and fall back to `[text]` when no chunk was
produced. -/
def chunk_text (text : PyStr) (chunkSize : Nat) : List PyStr :=
  let chunks := chunkLoop chunkSize (splitPar text) [] 0
  if chunks = [] then [text] else chunks

/-- The non-blank paragraphs of a text, in order: exactly the paragraphs the
loop in `chunk_text` does not skip. -/
def nonblankParas (t : PyStr) : List PyStr :=
  (splitPar t).filter (fun p => !(isBlank p))

/-- Sum of the paragraph lengths of a chunk group, which is what
`current_size` tracks (the joined chunk itself is longer by two characters
per separator). -/
def sumLens (g : List PyStr) : Nat := (g.map List.length).sum

theorem sepJoin_cons (p : PyStr) (ps : List PyStr) (h : ps ≠ []) :
    sepJoin (p :: ps) = p ++ '\n' :: '\n' :: sepJoin ps := by
  cases ps with
  | nil => exact absurd rfl h
  | cons q qs => rfl

theorem chunkLoop_nil (n : Nat) (cur : List PyStr) (size : Nat) :
    chunkLoop n [] cur size = if cur = [] then [] else [sepJoin cur] := rfl

theorem chunkLoop_cons_blank (n : Nat) (p : PyStr) (ps cur : List PyStr) (size : Nat)
    (h : isBlank p = true) :
    chunkLoop n (p :: ps) cur size = chunkLoop n ps cur size := by
  simp [chunkLoop, h]

theorem chunkLoop_cons_close (n : Nat) (p : PyStr) (ps cur : List PyStr) (size : Nat)
    (h : isBlank p = false) (hc : size + p.length > n ∧ cur ≠ []) :
    chunkLoop n (p :: ps) cur size = sepJoin cur :: chunkLoop n ps [p] p.length := by
  simp [chunkLoop, h, hc.1, hc.2]

theorem chunkLoop_cons_add (n : Nat) (p : PyStr) (ps cur : List PyStr) (size : Nat)
    (h : isBlank p = false) (hc : ¬(size + p.length > n ∧ cur ≠ [])) :
    chunkLoop n (p :: ps) cur size = chunkLoop n ps (cur ++ [p]) (size + p.length) := by
  simp only [chunkLoop, h, Bool.false_eq_true, if_false, if_neg hc]

/-- Core invariant of the accumulation loop: starting from a non-empty
current chunk whose recorded size is the sum of its paragraph lengths and
which already satisfies the size discipline, the loop emits exactly a
partition of the remaining non-blank paragraphs into groups, each emitted
chunk being the blank-line join of one group, and each group either fitting
in the budget (by paragraph-length sum) or being a single paragraph. -/
theorem chunkLoop_groups (n : Nat) (ps : List PyStr) (cur : List PyStr) (size : Nat)
    (hcur : cur ≠ []) (hsize : size = sumLens cur)
    (hinv : sumLens cur ≤ n ∨ cur.length = 1) :
    ∃ groups : List (List PyStr), groups ≠ [] ∧
      chunkLoop n ps cur size = groups.map sepJoin ∧
      groups.flatten = cur ++ ps.filter (fun p => !(isBlank p)) ∧
      ∀ g ∈ groups, g ≠ [] ∧ (sumLens g ≤ n ∨ g.length = 1) := by
  induction ps generalizing cur size with
  | nil =>
    refine ⟨[cur], by simp, ?_, by simp, ?_⟩
    · simp [chunkLoop_nil, hcur]
    · intro g hg
      simp only [List.mem_singleton] at hg
      exact hg ▸ ⟨hcur, hinv⟩
  | cons p ps ih =>
    by_cases hb : isBlank p = true
    · obtain ⟨groups, hne, heq, hjoin, hprop⟩ := ih cur size hcur hsize hinv
      refine ⟨groups, hne, ?_, ?_, hprop⟩
      · rw [chunkLoop_cons_blank n p ps cur size hb]
        exact heq
      · simpa [hb] using hjoin
    · have hb' : isBlank p = false := by simpa using hb
      by_cases hc : size + p.length > n ∧ cur ≠ []
      · obtain ⟨groups, hne, heq, hjoin, hprop⟩ :=
          ih [p] p.length (by simp) (by simp [sumLens]) (Or.inr rfl)
        refine ⟨cur :: groups, by simp, ?_, ?_, ?_⟩
        · rw [chunkLoop_cons_close n p ps cur size hb' hc, heq, List.map_cons]
        · simp [hjoin, hb']
        · intro g hg
          rcases List.mem_cons.mp hg with hg | hg
          · exact hg ▸ ⟨hcur, hinv⟩
          · exact hprop g hg
      · have hinv' : sumLens (cur ++ [p]) ≤ n ∨ (cur ++ [p]).length = 1 := by
          rcases Decidable.not_and_iff_or_not.mp hc with h1 | h2
          · left
            have : size + p.length ≤ n := Nat.le_of_not_lt h1
            simpa [sumLens, hsize] using this
          · right
            have : cur = [] := not_not.mp h2
            simp [this]
        obtain ⟨groups, hne, heq, hjoin, hprop⟩ :=
          ih (cur ++ [p]) (size + p.length) (by simp) (by simp [sumLens, hsize]) hinv'
        refine ⟨groups, hne, ?_, ?_, hprop⟩
        · rw [chunkLoop_cons_add n p ps cur size hb' hc]
          exact heq
        · simpa [hb'] using hjoin

/-- Starting the loop with an empty current chunk: either every paragraph is
blank and nothing is emitted, or the emitted chunks partition the non-blank
paragraphs as in `chunkLoop_groups`. -/
theorem chunkLoop_start (n : Nat) (ps : List PyStr) :
    (ps.filter (fun p => !(isBlank p)) = [] ∧ chunkLoop n ps [] 0 = []) ∨
    (∃ groups : List (List PyStr), groups ≠ [] ∧
      chunkLoop n ps [] 0 = groups.map sepJoin ∧
      groups.flatten = ps.filter (fun p => !(isBlank p)) ∧
      ∀ g ∈ groups, g ≠ [] ∧ (sumLens g ≤ n ∨ g.length = 1)) := by
  induction ps with
  | nil => exact Or.inl ⟨rfl, by simp [chunkLoop_nil]⟩
  | cons p ps ih =>
    by_cases hb : isBlank p = true
    · rcases ih with ⟨hf, he⟩ | ⟨groups, hne, heq, hjoin, hprop⟩
      · refine Or.inl ⟨by simp [hb, hf], ?_⟩
        rw [chunkLoop_cons_blank n p ps [] 0 hb]
        exact he
      · refine Or.inr ⟨groups, hne, ?_, by simpa [hb] using hjoin, hprop⟩
        rw [chunkLoop_cons_blank n p ps [] 0 hb]
        exact heq
    · right
      have hb' : isBlank p = false := by simpa using hb
      have hc : ¬(0 + p.length > n ∧ ([] : List PyStr) ≠ []) := by simp
      obtain ⟨groups, hne, heq, hjoin, hprop⟩ :=
        chunkLoop_groups n ps [p] (0 + p.length) (by simp) (by simp [sumLens]) (Or.inr rfl)
      refine ⟨groups, hne, ?_, ?_, hprop⟩
      · rw [chunkLoop_cons_add n p ps [] 0 hb' hc]
        exact heq
      · simp only [hjoin, List.nil_append]
        simp [hb']

theorem sepJoin_append (l1 l2 : List PyStr) (h1 : l1 ≠ []) (h2 : l2 ≠ []) :
    sepJoin (l1 ++ l2) = sepJoin l1 ++ '\n' :: '\n' :: sepJoin l2 := by
  induction l1 with
  | nil => exact absurd rfl h1
  | cons p ps ih =>
    cases ps with
    | nil =>
      simpa [sepJoin_cons p l2 h2] using (by rfl : sepJoin ([p]) = p)
    | cons q qs =>
      have hne : (q :: qs) ++ l2 ≠ [] := by simp
      rw [List.cons_append, sepJoin_cons p ((q :: qs) ++ l2) hne,
        sepJoin_cons p (q :: qs) (by simp), ih (by simp)]
      simp

/-- Joining the emitted chunks with the paragraph separator reproduces the
join of the underlying paragraph groups. -/
theorem sepJoin_map_groups (groups : List (List PyStr)) (hne : ∀ g ∈ groups, g ≠ []) :
    sepJoin (groups.map sepJoin) = sepJoin groups.flatten := by
  induction groups with
  | nil => rfl
  | cons g gs ih =>
    cases gs with
    | nil => simp [sepJoin]
    | cons g' gs' =>
      have hg : g ≠ [] := hne g (List.mem_cons_self g (g' :: gs'))
      have hjoin : (g' :: gs').flatten ≠ [] := by
        have hg' : g' ≠ [] := hne g' (by simp)
        cases g' with
        | nil => exact absurd rfl hg'
        | cons c cs => simp
      have hstep : sepJoin (List.map sepJoin (g :: g' :: gs'))
          = sepJoin g ++ '\n' :: '\n' :: sepJoin (List.map sepJoin (g' :: gs')) := by
        rw [List.map_cons]
        exact sepJoin_cons (sepJoin g) ((g' :: gs').map sepJoin) (by simp)
      rw [hstep, ih (fun x hx => hne x (List.mem_cons_of_mem g hx))]
      conv_rhs => rw [List.flatten_cons, sepJoin_append g (g' :: gs').flatten hg hjoin]

/-- C3 (amended): `chunk_text` always returns a non-empty sequence; when the
text has no non-blank paragraph the single returned chunk is the original
text verbatim; otherwise the returned chunks, re-joined with the blank-line
separator, reproduce exactly the non-blank paragraph content of the text,
and every returned chunk is the blank-line join of a group of consecutive
non-blank paragraphs whose paragraph-length sum (which is what the loop
compares against the budget — it does not count the two separator characters
inserted between paragraphs) is at most `chunkSize`, unless the group is a
single (possibly oversized) paragraph. -/
theorem chunk_text_spec_C3 (t : PyStr) (n : Nat) :
    chunk_text t n ≠ [] ∧
    (if nonblankParas t = [] then chunk_text t n = [t]
     else sepJoin (chunk_text t n) = sepJoin (nonblankParas t) ∧
       ∃ groups : List (List PyStr), groups ≠ [] ∧
         chunk_text t n = groups.map sepJoin ∧
         groups.flatten = nonblankParas t ∧
         ∀ g ∈ groups, g ≠ [] ∧ (sumLens g ≤ n ∨ g.length = 1)) := by
  rcases chunkLoop_start n (splitPar t) with ⟨hf, he⟩ | ⟨groups, hne, heq, hjoin, hprop⟩
  · have hnb : nonblankParas t = [] := hf
    have hct : chunk_text t n = [t] := by simp [chunk_text, he]
    refine ⟨by simp [hct], ?_⟩
    rw [if_pos hnb]
    exact hct
  · have hjoin' : groups.flatten = nonblankParas t := hjoin
    have hgne : ∀ g ∈ groups, g ≠ [] := fun g hg => (hprop g hg).1
    have hfne : nonblankParas t ≠ [] := by
      intro hcontra
      rw [hcontra] at hjoin'
      cases groups with
      | nil => exact hne rfl
      | cons g gs =>
        have hg : g ≠ [] := hgne g (List.mem_cons_self g gs)
        rw [List.flatten_cons] at hjoin'
        exact hg (List.append_eq_nil.mp hjoin').1
    have hloopne : chunkLoop n (splitPar t) [] 0 ≠ [] := by
      rw [heq]
      cases groups with
      | nil => exact absurd rfl hne
      | cons g gs => simp
    have hct : chunk_text t n = groups.map sepJoin := by
      simp only [chunk_text]
      rw [if_neg hloopne, heq]
    have hctne : chunk_text t n ≠ [] := by
      rw [hct]
      cases groups with
      | nil => exact absurd rfl hne
      | cons g gs => simp
    refine ⟨hctne, ?_⟩
    rw [if_neg hfne]
    have hsj : sepJoin (chunk_text t n) = sepJoin (nonblankParas t) := by
      rw [hct, sepJoin_map_groups groups hgne, hjoin']
    exact ⟨hsj, groups, hne, hct, hjoin', hprop⟩

/-- C3 counterexample: with a budget of 10, the text made of two five-letter
paragraphs is returned as one chunk of length 12 (the loop does not count
the two separator characters), although that chunk is not a single oversized
paragraph — it consists of two non-blank paragraphs of length 5 each. -/
theorem chunk_text_len_counterexample_C3 :
    chunk_text ("aaaaa\n\nbbbbb".data) 10 = ["aaaaa\n\nbbbbb".data] ∧
    ("aaaaa\n\nbbbbb".data).length = 12 ∧ 12 > 10 ∧
    nonblankParas ("aaaaa\n\nbbbbb".data) = ["aaaaa".data, "bbbbb".data] ∧
    ("aaaaa".data).length ≤ 10 ∧ ("bbbbb".data).length ≤ 10 := by
  refine ⟨by decide, by decide, by decide, by decide, by decide, by decide⟩

/-! ### Embedding provider (`embedding_function.py`) -/

/-- A numeric vector; Python floats modelled as exact rationals. -/
abbrev Vec := List ℚ

/-- The response shapes of the remote embedding call that
`GeminiEmbeddingFunction.__call__` probes for, in the order of its
`hasattr`/`isinstance` ladder (lines 56-72). -/
inductive EmbedResponse where
  | objEmbedding (v : Vec)
  | objEmbeddings (vs : List Vec)
  | dictEmbedding (v : Vec)
  | dictEmbeddingValues (v : Vec)
  | dictEmbeddings (vs : List Vec)
  | dictOther
  | iterable (v : Vec)

/-- The vector-extraction ladder of `__call__`: an object with a single
embedding, an object with a list of embeddings (first taken — an empty list
raises), a mapping with either key (a nested `values` mapping unwrapped), or
a plain iterable.  A mapping with neither key leaves the local variable
unassigned, so the following code raises a `NameError`. -/
def extractEmbedding : EmbedResponse → Except String Vec
  | .objEmbedding v => .ok v
  | .objEmbeddings vs =>
    match vs with
    | [] => .error "IndexError"
    | v :: _ => .ok v
  | .dictEmbedding v => .ok v
  | .dictEmbeddingValues v => .ok v
  | .dictEmbeddings vs =>
    match vs with
    | [] => .error "IndexError"
    | v :: _ => .ok v
  | .dictOther => .error "NameError"
  | .iterable v => .ok v

/-- Lines 79-82 of `__call__`: zero-pad a short vector to the configured
dimension, truncate a long one. -/
def fitToDim (dim : Nat) (v : Vec) : Vec :=
  if v.length < dim then v ++ List.replicate (dim - v.length) 0 else v.take dim

/-- Lines 84-87 of `__call__`: divide by the norm when it is positive.  The
floating-point norm computation (`np.linalg.norm`) is an oracle parameter;
the guard and the componentwise division are from the source. -/
def normalizeWith (norm : Vec → ℚ) (v : Vec) : Vec :=
  if norm v > 0 then v.map (fun x => x / norm v) else v

/-- Python `text[:8000]` guarded by `if len(text) > 8000` (lines 37-38). -/
def truncate8000 (t : PyStr) : PyStr :=
  if t.length > 8000 then t.take 8000 else t

/-- The per-text body of `GeminiEmbeddingFunction.__call__`
(`embedding_function.py`, lines 35-89): truncate, call the remote service
(`remote`), extract the vector, fit it to `dim` entries and normalize.
There is no exception handler anywhere in `__call__`, so a failing remote
call (or a failing extraction) propagates to the caller. -/
def geminiEmbedOne (dim : Nat) (norm : Vec → ℚ)
    (remote : PyStr → Except String EmbedResponse) (text : PyStr) : Except String Vec :=
  match remote (truncate8000 text) with
  | .error e => .error e
  | .ok r =>
    match extractEmbedding r with
    | .error e => .error e
    | .ok emb => .ok (normalizeWith norm (fitToDim dim emb))

/-- The whole of `GeminiEmbeddingFunction.__call__`: embed each text in
order, aborting with the exception of the first failing one. -/
def geminiCall (dim : Nat) (norm : Vec → ℚ)
    (remote : PyStr → Except String EmbedResponse) : List PyStr → Except String (List Vec)
  | [] => .ok []
  | t :: ts =>
    match geminiEmbedOne dim norm remote t with
    | .error e => .error e
    | .ok v =>
      match geminiCall dim norm remote ts with
      | .error e => .error e
      | .ok vs => .ok (v :: vs)

theorem fitToDim_length (dim : Nat) (v : Vec) : (fitToDim dim v).length = dim := by
  by_cases h : v.length < dim
  · simp [fitToDim, h]
    omega
  · simp [fitToDim, h]
    omega

theorem normalizeWith_length (norm : Vec → ℚ) (v : Vec) :
    (normalizeWith norm v).length = v.length := by
  by_cases h : norm v > 0 <;> simp [normalizeWith, h]

/-- C1 (amended): when every remote call succeeds with an extractable
response shape, `embed` returns one vector per input text, each of exactly
`EMBEDDING_DIMENSION` (`dim`) entries — the padding/truncation step
guarantees the dimension for every response vector and every norm outcome.
But when the remote call for some text fails, the exception propagates to
the caller unchanged: `__call__` has no exception handler and no fallback
path of any kind (in particular no hash-derived pseudo-embedding). -/
theorem geminiCall_spec_C1 (dim : Nat) (norm : Vec → ℚ)
    (remote : PyStr → Except String EmbedResponse) :
    (∀ texts vs, geminiCall dim norm remote texts = Except.ok vs →
       vs.length = texts.length ∧ ∀ v ∈ vs, v.length = dim) ∧
    (∀ t ts e, remote (truncate8000 t) = Except.error e →
       geminiCall dim norm remote (t :: ts) = Except.error e) := by
  constructor
  · intro texts
    induction texts with
    | nil =>
      intro vs h
      simp only [geminiCall] at h
      cases h
      exact ⟨rfl, by intro v hv; simp at hv⟩
    | cons t ts ih =>
      intro vs h
      simp only [geminiCall] at h
      cases hone : geminiEmbedOne dim norm remote t with
      | error e => rw [hone] at h; cases h
      | ok v =>
        rw [hone] at h
        cases hrest : geminiCall dim norm remote ts with
        | error e => rw [hrest] at h; cases h
        | ok ws =>
          rw [hrest] at h
          cases h
          obtain ⟨hlen, hdim⟩ := ih ws hrest
          refine ⟨by simp [hlen], ?_⟩
          intro w hw
          rcases List.mem_cons.mp hw with hw | hw
          · subst hw
            cases hr : remote (truncate8000 t) with
            | error e =>
              simp only [geminiEmbedOne, hr] at hone
              exact Except.noConfusion hone
            | ok r =>
              cases hx : extractEmbedding r with
              | error e =>
                simp only [geminiEmbedOne, hr, hx] at hone
                exact Except.noConfusion hone
              | ok emb =>
                simp only [geminiEmbedOne, hr, hx, Except.ok.injEq] at hone
                rw [← hone, normalizeWith_length, fitToDim_length]
          · exact hdim w hw
  · intro t ts e h
    simp only [geminiCall, geminiEmbedOne, h]

/-- C1 counterexample: a remote embedding service that raises a connection
error makes `__call__` raise that very error — no vector of any length is
returned and no deterministic fallback is computed, contradicting the
claimed hash-fallback recovery. -/
theorem geminiCall_no_fallback_counterexample_C1 :
    geminiCall 768 (fun _ => 0) (fun _ => Except.error "ConnectionError") ["hi".data]
      = Except.error "ConnectionError" := by
  rfl

/-- Witness for `geminiCall_spec_C1`: a remote service answering with a
two-entry vector for a three-dimensional configuration yields a single
padded three-entry vector, and the failing remote call propagates. -/
theorem geminiCall_spec_C1_witness :
    (geminiCall 3 (fun _ => 0) (fun _ => Except.ok (EmbedResponse.objEmbedding [1, 2]))
        ["a".data] = Except.ok [[1, 2, 0]]) ∧
    ([([1, 2, 0] : Vec)].length = [("a".data : PyStr)].length ∧
      ∀ v ∈ [([1, 2, 0] : Vec)], v.length = 3) ∧
    ((fun _ => Except.error "boom" : PyStr → Except String EmbedResponse)
        (truncate8000 ("a".data)) = Except.error "boom" ∧
      geminiCall 3 (fun _ => 0) (fun _ => Except.error "boom") ["a".data]
        = Except.error "boom") :=
  ⟨by rfl,
   (geminiCall_spec_C1 3 (fun _ => 0)
      (fun _ => Except.ok (EmbedResponse.objEmbedding [1, 2]))).1
     ["a".data] [[1, 2, 0]] (by rfl),
   by rfl,
   (geminiCall_spec_C1 3 (fun _ => 0) (fun _ => Except.error "boom")).2
     ("a".data) [] "boom" (by rfl)⟩

/-! ### Retrieval and ranking (`query_documents.py`) -/

/-- A vector-engine collection as `retrieve_documents` sees it: a possibly
failing `count()` and a possibly failing `query(query_texts=[...], n_results)`
returning documents with engine distances for the one query text sent. -/
structure QCollection where
  count : Except String Nat
  query : Nat → Except String (List (String × ℚ))

/-- `get_total_documents` (`query_documents.py`, lines 78-84): the count
clamped to at least 1, and 1 when counting raises. -/
def get_total_documents (c : QCollection) : Nat :=
  match c.count with
  | .ok n => max 1 n
  | .error _ => 1

/-- Line 115: `similarity = max(0, 1 - distance)`. -/
def simOf (d : ℚ) : ℚ := max 0 (1 - d)

/-- The `for collection in collections` loop of `retrieve_documents` (lines
109-116): query each collection for its full chunk count, convert distances
to similarities, and accumulate in collection order.  The loop runs inside
one `try`, so the first failing query aborts the whole accumulation. -/
def queryLoop : List QCollection → Except String (List (String × ℚ))
  | [] => .ok []
  | c :: cs =>
    match c.query (get_total_documents c) with
    | .error e => .error e
    | .ok res =>
      match queryLoop cs with
      | .error e => .error e
      | .ok rest => .ok (res.map (fun p => (p.1, simOf p.2)) ++ rest)

/-- The scope of a retrieval: one named collection, or all collections of
the database (`collection_name` absent or equal to `"all"`). -/
inductive Scope where
  | one (c : QCollection)
  | all (cols : List QCollection)

def scopeCollections : Scope → List QCollection
  | .one c => [c]
  | .all cols => cols

/-- The descending-similarity order used by
`retrieved_docs.sort(key=lambda x: x[1], reverse=True)`. -/
def simGE (a b : String × ℚ) : Prop := b.2 ≤ a.2

instance : DecidableRel simGE :=
  fun a b => inferInstanceAs (Decidable (b.2 ≤ a.2))

instance : IsTotal (String × ℚ) simGE :=
  ⟨fun a b => le_total b.2 a.2⟩

instance : IsTrans (String × ℚ) simGE :=
  ⟨fun _ _ _ hab hbc => le_trans hbc hab⟩

/-- `retrieve_documents` (`query_documents.py`, lines 86-123): accumulate
per-collection results, then sort descending by similarity.  Python
`list.sort` is a stable sort and `reverse=True` preserves stability, so it
is modelled by the stable `insertionSort` under `simGE` (the unique stable
descending permutation).  Any exception — including a failing query on one
collection — is caught by the surrounding handler, which returns `[]`. -/
def retrieve_documents (scope : Scope) : List (String × ℚ) :=
  match queryLoop (scopeCollections scope) with
  | .error _ => []
  | .ok res => List.insertionSort simGE res

/-- C4: for every retrieval whose engine queries all succeed: each
collection is asked for its full chunk count clamped to at least 1; each
distance is converted by `max(0, 1 - d)`, which lies in `[0, 1]` for
non-negative distances, is 1 at distance 0 and 0 at distance 3/2; and the
returned list is a permutation of the concatenated per-collection results,
sorted descending by similarity, stably — any pair already in
similarity-descending order in the concatenation (ties included) keeps its
relative order in the output. -/
theorem retrieve_documents_spec_C4 (scope : Scope) (res : List (String × ℚ))
    (h : queryLoop (scopeCollections scope) = Except.ok res) :
    (∀ c : QCollection, ∀ n, c.count = Except.ok n → get_total_documents c = max 1 n) ∧
    (∀ c : QCollection, 1 ≤ get_total_documents c) ∧
    (∀ d : ℚ, 0 ≤ d → 0 ≤ simOf d ∧ simOf d ≤ 1) ∧
    simOf 0 = 1 ∧ simOf (3 / 2) = 0 ∧
    List.Perm (retrieve_documents scope) res ∧
    (retrieve_documents scope).Sorted simGE ∧
    (∀ a b, simGE a b → List.Sublist [a, b] res →
       List.Sublist [a, b] (retrieve_documents scope)) := by
  have hr : retrieve_documents scope = List.insertionSort simGE res := by
    simp [retrieve_documents, h]
  refine ⟨?_, ?_, ?_, ?_, ?_, ?_, ?_, ?_⟩
  · intro c n hc
    simp [get_total_documents, hc]
  · intro c
    cases hc : c.count with
    | ok n => simp [get_total_documents, hc]
    | error e => simp [get_total_documents, hc]
  · intro d hd
    constructor
    · exact le_max_left 0 (1 - d)
    · have h1 : (0 : ℚ) ≤ 1 := by norm_num
      have h2 : 1 - d ≤ 1 := by linarith
      exact max_le h1 h2
  · simp [simOf]
  · have : (1 : ℚ) - 3 / 2 = -(1 / 2) := by norm_num
    simp [simOf, this]
  · rw [hr]
    exact List.perm_insertionSort simGE res
  · rw [hr]
    exact List.sorted_insertionSort simGE res
  · intro a b hab hsub
    rw [hr]
    exact List.pair_sublist_insertionSort hab hsub

/-- Witness for `retrieve_documents_spec_C4`: two collections, the first
returning distances 1/2 and 0, the second distance 1/2; the concatenated
similarities are 1/2, 1, 1/2, and the specification holds of the resulting
retrieval. -/
theorem retrieve_documents_spec_C4_witness :
    queryLoop (scopeCollections (Scope.all
        [⟨Except.ok 2, fun _ => Except.ok [("a", 1 / 2), ("b", 0)]⟩,
         ⟨Except.ok 1, fun _ => Except.ok [("c", 1 / 2)]⟩]))
      = Except.ok [("a", 1 / 2), ("b", 1), ("c", 1 / 2)] ∧
    ((∀ c : QCollection, ∀ n, c.count = Except.ok n → get_total_documents c = max 1 n) ∧
     (∀ c : QCollection, 1 ≤ get_total_documents c) ∧
     (∀ d : ℚ, 0 ≤ d → 0 ≤ simOf d ∧ simOf d ≤ 1) ∧
     simOf 0 = 1 ∧ simOf (3 / 2) = 0 ∧
     List.Perm (retrieve_documents (Scope.all
        [⟨Except.ok 2, fun _ => Except.ok [("a", 1 / 2), ("b", 0)]⟩,
         ⟨Except.ok 1, fun _ => Except.ok [("c", 1 / 2)]⟩]))
       [("a", 1 / 2), ("b", 1), ("c", 1 / 2)] ∧
     (retrieve_documents (Scope.all
        [⟨Except.ok 2, fun _ => Except.ok [("a", 1 / 2), ("b", 0)]⟩,
         ⟨Except.ok 1, fun _ => Except.ok [("c", 1 / 2)]⟩])).Sorted simGE ∧
     (∀ a b, simGE a b → List.Sublist [a, b] [("a", 1 / 2), ("b", 1), ("c", 1 / 2)] →
        List.Sublist [a, b] (retrieve_documents (Scope.all
          [⟨Except.ok 2, fun _ => Except.ok [("a", 1 / 2), ("b", 0)]⟩,
           ⟨Except.ok 1, fun _ => Except.ok [("c", 1 / 2)]⟩])))) := by
  have hq : queryLoop (scopeCollections (Scope.all
        [⟨Except.ok 2, fun _ => Except.ok [("a", 1 / 2), ("b", 0)]⟩,
         ⟨Except.ok 1, fun _ => Except.ok [("c", 1 / 2)]⟩]))
      = Except.ok [("a", 1 / 2), ("b", 1), ("c", 1 / 2)] := by
    simp [queryLoop, scopeCollections, get_total_documents, simOf]
    norm_num
  exact ⟨hq, retrieve_documents_spec_C4 _ _ hq⟩

/-- The outcome of `query_collection` (`query_documents.py`, lines 145-160):
either the printed no-relevant-documents warning (the function returns
before any generation-service call) or a printed response. -/
inductive QueryOutcome where
  | printedWarning (s : String)
  | printedResponse (s : String)

/-- Python `"\x5cn\x5cn".join(strings)`. -/
def sepJoinStr : List String → String
  | [] => ""
  | [s] => s
  | s :: ss => s ++ "\n\n" ++ sepJoinStr ss

/-- `query_collection` (`query_documents.py`, lines 145-160), with the
generation service (`generate_response_gemini`) as the oracle `gen`: when
retrieval is empty, print the literal warning and return; otherwise build
the document context and either call the generation service (comprehensive
mode) or return the strict-mode framing. -/
def query_collection (gen : String → String) (query_text : String)
    (scope : Scope) (mode : String) : QueryOutcome :=
  let docs := retrieve_documents scope
  if docs = [] then
    .printedWarning "⚠ No relevant documents found in the database."
  else
    let ctx := sepJoinStr (docs.map (fun p => p.1))
    .printedResponse
      (if mode = "comprehensive" then
        gen ("Here are relevant documents:\n\n" ++ ctx ++ "\n\nNow answer: " ++ query_text)
      else
        "Based on the following documents, answer: \x27" ++ query_text ++ "\x27\n\n" ++ ctx)

/-- C5: when no collections exist under the all-collections scope the
retrieval returns the empty list, and whenever retrieval is empty the
caller produces exactly the literal no-relevant-documents warning — for
every generation oracle `gen`, so the generation service is never
consulted. -/
theorem query_collection_empty_C5 :
    retrieve_documents (Scope.all []) = [] ∧
    ∀ (gen : String → String) (q : String) (scope : Scope) (mode : String),
      retrieve_documents scope = [] →
        query_collection gen q scope mode
          = QueryOutcome.printedWarning "⚠ No relevant documents found in the database." := by
  refine ⟨rfl, ?_⟩
  intro gen q scope mode h
  simp [query_collection, h]

/-- Witness for `query_collection_empty_C5`: the all-collections scope over
an empty database yields the literal warning, for a concrete generation
oracle that is visibly never used. -/
theorem query_collection_empty_C5_witness :
    retrieve_documents (Scope.all []) = [] ∧
    query_collection (fun s => s) "what is in my documents" (Scope.all []) "comprehensive"
      = QueryOutcome.printedWarning "⚠ No relevant documents found in the database." :=
  ⟨(query_collection_empty_C5).1,
   (query_collection_empty_C5).2 (fun s => s) "what is in my documents"
     (Scope.all []) "comprehensive" (query_collection_empty_C5).1⟩

/-! ### Vector store and ingestion (`process_document.py`) -/

/-- A metadata value: the source stores strings, booleans and integers. -/
inductive MetaVal where
  | s (v : PyStr)
  | b (v : Bool)
  | n (v : Nat)
deriving DecidableEq

/-- A metadata mapping, in insertion order as a Python dict. -/
abbrev Meta := List (String × MetaVal)

/-- One stored chunk: its text and its metadata. -/
structure Entry where
  text : PyStr
  meta : Meta
deriving DecidableEq

/-- A vector-engine collection: entries keyed by chunk id. -/
abbrev Store := List (PyStr × Entry)

def containsId (s : Store) (id : PyStr) : Bool :=
  s.any (fun p => p.1 = id)

/-- Modelled from the spec: the vector engine itself (the `chromadb` client
behind `collection.add`) is an external collaborator not under `src/`; per
the concurrency section of the spec, a same id reused on re-ingestion is
expected to overwrite, not corrupt, so `add` is modelled as a keyed upsert
of each entry. -/
def storeUpsert (s : Store) (id : PyStr) (e : Entry) : Store :=
  if containsId s id then s.map (fun p => if p.1 = id then (id, e) else p)
  else s ++ [(id, e)]

/-- Modelled from the spec: one `collection.add(ids, documents, metadatas)`
batch call writes each id-keyed entry in order. -/
def storeAdd (s : Store) (batch : List (PyStr × Entry)) : Store :=
  batch.foldl (fun acc b => storeUpsert acc b.1 b.2) s

theorem containsId_eq_keys (s : Store) (id : PyStr) :
    containsId s id = (s.map Prod.fst).any (fun k => k = id) := by
  induction s with
  | nil => rfl
  | cons p ps ih =>
    simp only [containsId, List.any_cons, List.map_cons] at ih ⊢
    rw [ih]

theorem storeUpsert_keys (s : Store) (id : PyStr) (e : Entry)
    (h : containsId s id = true) :
    (storeUpsert s id e).map Prod.fst = s.map Prod.fst := by
  simp only [storeUpsert, h, if_true]
  rw [List.map_map]
  apply List.map_congr_left
  intro p _
  by_cases hp : p.1 = id
  · simp [hp, Function.comp]
  · simp [hp, Function.comp]

theorem containsId_storeUpsert (s : Store) (id : PyStr) (e : Entry) (idq : PyStr)
    (h : containsId s idq = true) :
    containsId (storeUpsert s id e) idq = true := by
  by_cases hc : containsId s id = true
  · rw [containsId_eq_keys, storeUpsert_keys s id e hc, ← containsId_eq_keys]
    exact h
  · have hup : storeUpsert s id e = s ++ [(id, e)] := by
      simp only [storeUpsert]
      rw [if_neg hc]
    rw [hup]
    simp only [containsId, List.any_append]
    simp only [containsId] at h
    simp [h]

theorem containsId_storeUpsert_self (s : Store) (id : PyStr) (e : Entry) :
    containsId (storeUpsert s id e) id = true := by
  by_cases hc : containsId s id = true
  · rw [containsId_eq_keys, storeUpsert_keys s id e hc, ← containsId_eq_keys]
    exact hc
  · have hup : storeUpsert s id e = s ++ [(id, e)] := by
      simp only [storeUpsert]
      rw [if_neg hc]
    rw [hup]
    simp [containsId, List.any_append]

theorem storeAdd_contains_mono (batch : List (PyStr × Entry)) (s : Store) (id : PyStr)
    (h : containsId s id = true) :
    containsId (storeAdd s batch) id = true := by
  induction batch generalizing s with
  | nil => exact h
  | cons b bs ih => exact ih _ (containsId_storeUpsert s b.1 b.2 id h)

theorem storeAdd_contains (batch : List (PyStr × Entry)) (s : Store)
    (b : PyStr × Entry) (hb : b ∈ batch) :
    containsId (storeAdd s batch) b.1 = true := by
  induction batch generalizing s with
  | nil => cases hb
  | cons c cs ih =>
    rcases List.mem_cons.mp hb with h | h
    · subst h
      exact storeAdd_contains_mono cs _ b.1 (containsId_storeUpsert_self s b.1 b.2)
    · exact ih _ h

theorem storeAdd_keys (batch : List (PyStr × Entry)) (s : Store)
    (h : ∀ b ∈ batch, containsId s b.1 = true) :
    (storeAdd s batch).map Prod.fst = s.map Prod.fst := by
  induction batch generalizing s with
  | nil => rfl
  | cons b bs ih =>
    have hb := h b (List.mem_cons_self b bs)
    have hrest : ∀ x ∈ bs, containsId (storeUpsert s b.1 b.2) x.1 = true :=
      fun x hx => containsId_storeUpsert s b.1 b.2 x.1 (h x (List.mem_cons_of_mem b hx))
    calc (storeAdd (storeUpsert s b.1 b.2) bs).map Prod.fst
        = (storeUpsert s b.1 b.2).map Prod.fst := ih _ hrest
      _ = s.map Prod.fst := storeUpsert_keys s b.1 b.2 hb

/-- `file_path` basename with dots replaced by underscores
(`process_document.py`, line 148: the filename-based identifier). -/
def fileIdentifier (fileName : PyStr) : PyStr :=
  fileName.map (fun c => if c = '.' then '_' else c)

/-- Decimal rendering of the zero-based chunk index. -/
def natStr (i : Nat) : PyStr := Nat.toDigits 10 i

/-- A chunk id: the document identifier followed by the literal infix and
the zero-based chunk index (lines 149 and 232). -/
def docId (ident : PyStr) (i : Nat) : PyStr :=
  ident ++ "_doc_".data ++ natStr i

/-- The chunk id list of `process_document` (lines 147-149): one id per
chunk, indexed from zero. -/
def processDocumentIds (fileName text : PyStr) : List PyStr :=
  (List.range (chunk_text text 1000).length).map (docId (fileIdentifier fileName))

/-- Lines 156-157: add the document name to the metadata when absent. -/
def withDocumentName (meta : Meta) (docName : PyStr) : Meta :=
  if (meta.lookup "document_name").isSome then meta
  else meta ++ [("document_name", MetaVal.s docName)]

/-- The storage step of `process_document` (`process_document.py`, lines
131-166), with extraction already done: chunk the text, derive the id per
chunk, copy the metadata per chunk, and add the batch to the collection
(the `Store`). -/
def process_document (store : Store) (fileName text : PyStr) (meta : Meta) : Store :=
  let chunks := chunk_text text 1000
  let ids := processDocumentIds fileName text
  let m := withDocumentName meta fileName
  storeAdd store (ids.zip (chunks.map (fun c => Entry.mk c m)))

theorem exists_zip_mem {α β : Type} :
    ∀ (l : List α) (lb : List β), l.length = lb.length → ∀ a ∈ l, ∃ b, (a, b) ∈ l.zip lb
  | [], _, _, a, ha => absurd ha (by simp)
  | _ :: _, [], h, _, _ => by simp at h
  | x :: xs, y :: ys, h, a, ha => by
    rcases List.mem_cons.mp ha with rfl | haq
    · exact ⟨y, by simp⟩
    · obtain ⟨b, hb⟩ := exists_zip_mem xs ys (by simpa using h) a haq
      exact ⟨b, by simp [hb]⟩

/-- C7: chunk ids are a pure function of the sanitized file name and the
chunk index, so re-ingesting the identical file writes a batch whose every
id is already present in the collection; consequently the second ingestion
changes neither the id sequence of the collection nor its total entry
count — the chunk count for the document does not double. -/
theorem process_document_reingest_C7 (store : Store) (fileName text : PyStr) (meta : Meta) :
    (∀ id ∈ processDocumentIds fileName text,
       containsId (process_document store fileName text meta) id = true) ∧
    (process_document (process_document store fileName text meta) fileName text meta).map
        Prod.fst
      = (process_document store fileName text meta).map Prod.fst ∧
    (process_document (process_document store fileName text meta) fileName text meta).length
      = (process_document store fileName text meta).length := by
  have hlen : (processDocumentIds fileName text).length
      = ((chunk_text text 1000).map
          (fun c => Entry.mk c (withDocumentName meta fileName))).length := by
    simp [processDocumentIds]
  have hmem : ∀ id ∈ processDocumentIds fileName text,
      containsId (process_document store fileName text meta) id = true := by
    intro id hid
    obtain ⟨e, he⟩ := exists_zip_mem _ _ hlen id hid
    exact storeAdd_contains _ store (id, e) he
  refine ⟨hmem, ?_, ?_⟩
  · apply storeAdd_keys
    intro b hb
    have hid : b.1 ∈ processDocumentIds fileName text := List.of_mem_zip hb |>.1
    exact hmem b.1 hid
  · have hkeys := storeAdd_keys
      ((processDocumentIds fileName text).zip
        ((chunk_text text 1000).map (fun c => Entry.mk c (withDocumentName meta fileName))))
      (process_document store fileName text meta)
      (fun b hb => hmem b.1 (List.of_mem_zip hb).1)
    have h1 := congrArg List.length hkeys
    simpa using h1

/-- Witness for `process_document_reingest_C7`: ingesting a one-chunk text
file named `a.txt` produces the id `a_txt_doc_0`, which is present after
the first ingestion, and the second ingestion preserves ids and count. -/
theorem process_document_reingest_C7_witness :
    ("a_txt_doc_0".data ∈ processDocumentIds ("a.txt".data) ("hello".data)) ∧
    containsId (process_document [] ("a.txt".data) ("hello".data) [])
      ("a_txt_doc_0".data) = true ∧
    (process_document (process_document [] ("a.txt".data) ("hello".data) [])
        ("a.txt".data) ("hello".data) []).map Prod.fst
      = (process_document [] ("a.txt".data) ("hello".data) []).map Prod.fst ∧
    (process_document (process_document [] ("a.txt".data) ("hello".data) [])
        ("a.txt".data) ("hello".data) []).length
      = (process_document [] ("a.txt".data) ("hello".data) []).length :=
  ⟨by decide,
   (process_document_reingest_C7 [] ("a.txt".data) ("hello".data) []).1
     ("a_txt_doc_0".data) (by decide),
   (process_document_reingest_C7 [] ("a.txt".data) ("hello".data) []).2.1,
   (process_document_reingest_C7 [] ("a.txt".data) ("hello".data) []).2.2⟩

/-! ### URL ingestion batches (`process_document.py`, `process_urls_batch`) -/

/-- What `fetch_web_content` hands back on success: extracted content,
content metadata, and the content type string. -/
structure WebContent where
  content : PyStr
  metadata : Meta
  content_type : String
deriving DecidableEq

/-- The success dictionary returned by `process_url` (lines 263-270). -/
structure UrlSuccess where
  document_id : PyStr
  url : String
  content_type : String
  collection : String
  chunks : Nat
deriving DecidableEq

/-- The result dictionary of `process_url`: `status` is `success` or
`error`, the url is carried in both shapes. -/
inductive UrlResult where
  | success (info : UrlSuccess)
  | failure (url : String) (err : String)
deriving DecidableEq

def UrlResult.statusStr : UrlResult → String
  | .success _ => "success"
  | .failure _ _ => "error"

def UrlResult.urlStr : UrlResult → String
  | .success i => i.url
  | .failure u _ => u

/-- Line 208: placeholder content for an empty fetch. -/
def placeholderUrlContent (url : String) : PyStr :=
  ("This URL (" ++ url ++ ") appears to be empty or could not be processed.").data

/-- Python `{**base, **extra}`: keys of `base` in order with values
overridden by `extra`, then the new keys of `extra`. -/
def mergeMeta (base extra : Meta) : Meta :=
  base.map (fun p =>
    match extra.lookup p.1 with
    | some v => (p.1, v)
    | none => p)
  ++ extra.filter (fun q => (base.lookup q.1).isNone)

/-- Python dict assignment `m[k] = v`: replace in place, else append. -/
def metaSet (m : Meta) (k : String) (v : MetaVal) : Meta :=
  if (m.lookup k).isSome then m.map (fun p => if p.1 = k then (k, v) else p)
  else m ++ [(k, v)]

/-- `process_url` (`process_document.py`, lines 175-279): fetch the URL
(the `fetch` oracle), substitute a placeholder for empty content, chunk,
derive ids from the MD5 hash of the URL (the `md5hash` oracle), merge the
content metadata with the caller metadata, default the document name to the
content title or the domain (the `domainOf` oracle for
`urlparse(url).netloc`), tag source fields, and add the batch to the
collection.  The whole body runs in one `try`: any failure — in particular
a failing fetch — is caught and turned into the error dictionary with the
URL preserved. -/
def process_url (md5hash : String → String) (fetch : String → Except String WebContent)
    (domainOf : String → String) (store : Store) (collName : String) (meta : Meta)
    (url : String) : Store × UrlResult :=
  match fetch url with
  | .error e => (store, .failure url e)
  | .ok wc =>
    let content := if wc.content = [] then placeholderUrlContent url else wc.content
    let chunks := chunk_text content 1000
    let urlHash := md5hash url
    let ids := (List.range chunks.length).map (docId (urlHash.data))
    let merged := mergeMeta wc.metadata meta
    let merged :=
      if (merged.lookup "document_name").isSome then merged
      else merged ++ [("document_name",
        match wc.metadata.lookup "title" with
        | some v => v
        | none => MetaVal.s (domainOf url).data)]
    let merged := metaSet merged "source" (MetaVal.s url.data)
    let merged := metaSet merged "source_type" (MetaVal.s "web".data)
    (storeAdd store (ids.zip (chunks.map (fun c => Entry.mk c merged))),
     .success ⟨urlHash.data, url, wc.content_type, collName, chunks.length⟩)

/-- `process_urls_batch` (lines 281-309): process each URL in order,
appending one result per URL.  `process_url` already converts its own
failures into error dictionaries, so the `try`/`except` inside the batch
loop never fires; either way every URL contributes exactly one entry. -/
def process_urls_batch (md5hash : String → String)
    (fetch : String → Except String WebContent) (domainOf : String → String)
    (store : Store) (collName : String) (meta : Meta) :
    List String → Store × List UrlResult
  | [] => (store, [])
  | url :: rest =>
    let sr := process_url md5hash fetch domainOf store collName meta url
    let srest := process_urls_batch md5hash fetch domainOf sr.1 collName meta rest
    (srest.1, sr.2 :: srest.2)

/-- C6 (amended): for URL batches the claim holds — every batch of URLs
yields exactly one result entry per URL, with the URL preserved and the
status reflecting that unit outcome alone, so one failing URL never aborts
the batch.  For the other batch unit named by the claim — the collections
queried under the all-collections scope — it fails: the per-collection
query loop of `retrieve_documents` runs inside a single exception handler,
so one failing collection aborts the whole retrieval, which returns the
empty list, discarding the partial results of the collections already
queried and reporting no per-unit status. -/
theorem batch_isolation_C6 (md5hash : String → String)
    (fetch : String → Except String WebContent) (domainOf : String → String)
    (store : Store) (collName : String) (meta : Meta) (urls : List String) :
    ((process_urls_batch md5hash fetch domainOf store collName meta urls).2.length
       = urls.length) ∧
    (∀ p ∈ (process_urls_batch md5hash fetch domainOf store collName meta urls).2.zip urls,
       p.1.urlStr = p.2 ∧
       (p.1.statusStr = "error" ↔ ∃ e, fetch p.2 = Except.error e) ∧
       (p.1.statusStr = "success" ↔ ∃ wc, fetch p.2 = Except.ok wc)) ∧
    (∀ (scope : Scope) (e : String),
       queryLoop (scopeCollections scope) = Except.error e →
         retrieve_documents scope = []) := by
  refine ⟨?_, ?_, ?_⟩
  · induction urls generalizing store with
    | nil => rfl
    | cons u us ih => simpa [process_urls_batch] using ih _
  · induction urls generalizing store with
    | nil => intro p hp; simp [process_urls_batch] at hp
    | cons u us ih =>
      intro p hp
      simp only [process_urls_batch, List.zip_cons_cons] at hp
      rcases List.mem_cons.mp hp with hp | hp
      · subst hp
        cases hf : fetch u with
        | error e =>
          simp only [process_url, hf]
          refine ⟨rfl, ?_, ?_⟩
          · constructor
            · intro _
              exact ⟨e, rfl⟩
            · intro _
              rfl
          · constructor
            · intro hcontra
              simp [UrlResult.statusStr] at hcontra
            · rintro ⟨wc, hwc⟩
              exact Except.noConfusion hwc
        | ok wc =>
          simp only [process_url, hf]
          refine ⟨rfl, ?_, ?_⟩
          · constructor
            · intro hcontra
              simp [UrlResult.statusStr] at hcontra
            · rintro ⟨e, he⟩
              exact Except.noConfusion he
          · constructor
            · intro _
              exact ⟨wc, rfl⟩
            · intro _
              rfl
      · exact ih _ p hp
  · intro scope e h
    simp [retrieve_documents, h]

/-- Witness for `batch_isolation_C6`: a batch of three URLs where the
second one fails with a 404 produces exactly three entries — success,
error (with the failing URL preserved), success — and a two-collection
retrieval whose second collection raises returns the empty list even
though the first collection returned a document. -/
theorem batch_isolation_C6_witness :
    ((process_urls_batch (fun _ => "h") (fun u =>
        if u = "http://x/2" then Except.error "404"
        else Except.ok ⟨"hello".data, [], "html"⟩)
      (fun _ => "x") [] "default" [] ["http://x/1", "http://x/2", "http://x/3"]).2.length
      = (["http://x/1", "http://x/2", "http://x/3"] : List String).length) ∧
    ((UrlResult.failure "http://x/2" "404",
        ("http://x/2" : String)) ∈ (process_urls_batch (fun _ => "h") (fun u =>
          if u = "http://x/2" then Except.error "404"
          else Except.ok ⟨"hello".data, [], "html"⟩)
        (fun _ => "x") [] "default" []
        ["http://x/1", "http://x/2", "http://x/3"]).2.zip
          ["http://x/1", "http://x/2", "http://x/3"]) ∧
    ((UrlResult.failure "http://x/2" "404").urlStr = "http://x/2" ∧
      ((UrlResult.failure "http://x/2" "404").statusStr = "error" ↔
        ∃ e, (fun u =>
          if u = "http://x/2" then Except.error "404"
          else Except.ok (⟨"hello".data, [], "html"⟩ : WebContent)) "http://x/2"
            = Except.error e) ∧
      ((UrlResult.failure "http://x/2" "404").statusStr = "success" ↔
        ∃ wc, (fun u =>
          if u = "http://x/2" then Except.error "404"
          else Except.ok (⟨"hello".data, [], "html"⟩ : WebContent)) "http://x/2"
            = Except.ok wc)) ∧
    ((process_urls_batch (fun _ => "h") (fun u =>
        if u = "http://x/2" then Except.error "404"
        else Except.ok ⟨"hello".data, [], "html"⟩)
      (fun _ => "x") [] "default" []
      ["http://x/1", "http://x/2", "http://x/3"]).2.map UrlResult.statusStr
      = ["success", "error", "success"]) :=
  ⟨(batch_isolation_C6 (fun _ => "h") (fun u =>
        if u = "http://x/2" then Except.error "404"
        else Except.ok ⟨"hello".data, [], "html"⟩)
      (fun _ => "x") [] "default" [] ["http://x/1", "http://x/2", "http://x/3"]).1,
   by decide,
   (batch_isolation_C6 (fun _ => "h") (fun u =>
        if u = "http://x/2" then Except.error "404"
        else Except.ok ⟨"hello".data, [], "html"⟩)
      (fun _ => "x") [] "default" [] ["http://x/1", "http://x/2", "http://x/3"]).2.1
     (UrlResult.failure "http://x/2" "404", "http://x/2") (by decide),
   by decide⟩

/-- C6 counterexample: under the all-collections scope with two
collections, the second of which raises on query, `retrieve_documents`
returns the empty list — the partial results of the first collection
(which returned a document at distance 0) are discarded and no per-unit
status is reported, so a failure on one unit does abort the batch. -/
theorem retrieve_documents_abort_counterexample_C6 :
    retrieve_documents (Scope.all
        [⟨Except.ok 1, fun _ => Except.ok [("doc1", 0)]⟩,
         ⟨Except.ok 1, fun _ => Except.error "boom"⟩]) = [] ∧
    (⟨Except.ok 1, fun _ => Except.ok [("doc1", 0)]⟩ : QCollection).query 1
      = Except.ok [("doc1", 0)] ∧
    queryLoop (scopeCollections (Scope.all
        [⟨Except.ok 1, fun _ => Except.ok [("doc1", 0)]⟩,
         ⟨Except.ok 1, fun _ => Except.error "boom"⟩])) = Except.error "boom" := by
  refine ⟨?_, rfl, ?_⟩
  · rfl
  · rfl

/-! ### Document deletion and listing (`chatbot_api.py`) -/

deriving instance DecidableEq for Except

/-- Python `metadata.get(k, d)` over string-valued endpoint metadata. -/
def metaGetD (m : List (String × String)) (k d : String) : String :=
  match m.lookup k with
  | some v => v
  | none => d

/-- The core of the `delete_document` endpoint (`chatbot_api.py`, lines
423-476), acting on the collection entries (`ids` aligned with
`metadatas`).  When the collection is empty, the 404 raised at line 442
sits inside the `try` suite of line 439, so the `except Exception` at line
443 catches that very exception and re-raises it as a 500 — the
empty-collection path therefore answers 500, not NotFound.  Otherwise the
loop scans the metadata for the FIRST entry whose `document_name` equals
the requested name (it breaks at the first match); no match raises 404
(this one sits in the outer `try`, whose `except HTTPException` re-raises
it unchanged); a match deletes exactly that one id. -/
def delete_document (entries : List (String × List (String × String)))
    (docName : String) : Except Nat (List (String × List (String × String))) :=
  if entries = [] then .error 500
  else
    match entries.find? (fun p => metaGetD p.2 "document_name" "" = docName) with
    | none => .error 404
    | some p => .ok (entries.filter (fun q => q.1 ≠ p.1))

/-- C2 evaluation at the failing input: a collection holding two
`report.pdf` chunks and one `notes.txt` chunk.  Deleting `report.pdf`
reports success but removes only the first matching chunk: the second
`report.pdf` chunk remains, contradicting the claim that all of the
document chunks are removed.  Of the NotFound half of the claim, only the
unmatched-name case holds (404); the empty-collection case answers 500,
because the 404 raised inside the inner `try` is caught by its own
`except Exception` and converted. -/
theorem delete_document_single_chunk_C2 :
    delete_document
      [("report_pdf_doc_0", [("document_name", "report.pdf")]),
       ("report_pdf_doc_1", [("document_name", "report.pdf")]),
       ("notes_txt_doc_0", [("document_name", "notes.txt")])] "report.pdf"
      = Except.ok
        [("report_pdf_doc_1", [("document_name", "report.pdf")]),
         ("notes_txt_doc_0", [("document_name", "notes.txt")])] ∧
    delete_document [("a_doc_0", [("document_name", "a")])] "missing"
      = Except.error 404 ∧
    delete_document ([] : List (String × List (String × String))) "report.pdf"
      = Except.error 500 :=
  ⟨by decide, by decide, by decide⟩

/-- Python `f-string` rendering of an optional string: `None` renders as
the four-letter string. -/
def pyFormatOptStr : Option String → String
  | none => "None"
  | some s => s

/-- The deduplication loop of the `get_documents` endpoint (`chatbot_api.py`,
lines 347-366): for each chunk metadata carrying a `document_name`, build
the key `doc_name + "|" + str(folder)` and emit the pair unless the key was
already seen. -/
def getDocsLoop : List (List (String × String)) → List String → List (String × Option String)
  | [], _ => []
  | m :: ms, seen =>
    match m.lookup "document_name" with
    | none => getDocsLoop ms seen
    | some doc =>
      let folder := m.lookup "folder_name"
      let key := doc ++ "|" ++ pyFormatOptStr folder
      if key ∈ seen then getDocsLoop ms seen
      else (doc, folder) :: getDocsLoop ms (key :: seen)

/-- `get_documents` over the metadata of all entries of the collection. -/
def get_documents (ms : List (List (String × String))) : List (String × Option String) :=
  getDocsLoop ms []

/-- The deduplication key actually used by the endpoint: the pipe-joined
rendering of the pair, not the pair itself. -/
def keyOf (p : String × Option String) : String :=
  p.1 ++ "|" ++ pyFormatOptStr p.2

theorem getDocsLoop_spec (ms : List (List (String × String))) (seen : List String) :
    (∀ k ∈ (getDocsLoop ms seen).map keyOf, k ∉ seen) ∧
    ((getDocsLoop ms seen).map keyOf).Nodup ∧
    (∀ p ∈ getDocsLoop ms seen, ∃ m ∈ ms, m.lookup "document_name" = some p.1 ∧
        m.lookup "folder_name" = p.2) ∧
    (∀ m ∈ ms, ∀ d, m.lookup "document_name" = some d →
        keyOf (d, m.lookup "folder_name") ∈ seen ∨
        keyOf (d, m.lookup "folder_name") ∈ (getDocsLoop ms seen).map keyOf) := by
  induction ms generalizing seen with
  | nil =>
    refine ⟨?_, List.nodup_nil, ?_, ?_⟩
    · intro k hk
      simp [getDocsLoop] at hk
    · intro p hp
      simp [getDocsLoop] at hp
    · intro m hm
      simp at hm
  | cons m ms ih =>
    cases hdoc : m.lookup "document_name" with
    | none =>
      obtain ⟨ih1, ih2, ih3, ih4⟩ := ih seen
      have hloop : getDocsLoop (m :: ms) seen = getDocsLoop ms seen := by
        simp only [getDocsLoop, hdoc]
      refine ⟨by rw [hloop]; exact ih1, by rw [hloop]; exact ih2, ?_, ?_⟩
      · intro p hp
        rw [hloop] at hp
        obtain ⟨mq, hmq, h1, h2⟩ := ih3 p hp
        exact ⟨mq, List.mem_cons_of_mem m hmq, h1, h2⟩
      · intro mq hmq d hd
        rcases List.mem_cons.mp hmq with rfl | hmq'
        · rw [hdoc] at hd
          exact Option.noConfusion hd
        · rw [hloop]
          exact ih4 mq hmq' d hd
    | some doc =>
      by_cases hkey : doc ++ "|" ++ pyFormatOptStr (m.lookup "folder_name") ∈ seen
      · obtain ⟨ih1, ih2, ih3, ih4⟩ := ih seen
        have hloop : getDocsLoop (m :: ms) seen = getDocsLoop ms seen := by
          simp only [getDocsLoop, hdoc]
          rw [if_pos hkey]
        refine ⟨by rw [hloop]; exact ih1, by rw [hloop]; exact ih2, ?_, ?_⟩
        · intro p hp
          rw [hloop] at hp
          obtain ⟨mq, hmq, h1, h2⟩ := ih3 p hp
          exact ⟨mq, List.mem_cons_of_mem m hmq, h1, h2⟩
        · intro mq hmq d hd
          rcases List.mem_cons.mp hmq with rfl | hmq'
          · left
            rw [hdoc] at hd
            cases hd
            exact hkey
          · rw [hloop]
            exact ih4 mq hmq' d hd
      · obtain ⟨ih1, ih2, ih3, ih4⟩ :=
          ih ((doc ++ "|" ++ pyFormatOptStr (m.lookup "folder_name")) :: seen)
        have hloop : getDocsLoop (m :: ms) seen
            = (doc, m.lookup "folder_name")
              :: getDocsLoop ms
                ((doc ++ "|" ++ pyFormatOptStr (m.lookup "folder_name")) :: seen) := by
          simp only [getDocsLoop, hdoc]
          rw [if_neg hkey]
        have hkeyOf : keyOf (doc, m.lookup "folder_name")
            = doc ++ "|" ++ pyFormatOptStr (m.lookup "folder_name") := rfl
        refine ⟨?_, ?_, ?_, ?_⟩
        · intro k hk
          rw [hloop] at hk
          simp only [List.map_cons, List.mem_cons] at hk
          rcases hk with rfl | hk
          · rw [hkeyOf]
            exact hkey
          · intro hcontra
            exact ih1 k hk (List.mem_cons_of_mem _ hcontra)
        · rw [hloop]
          simp only [List.map_cons, List.nodup_cons]
          constructor
          · intro hcontra
            have := ih1 _ hcontra
            rw [hkeyOf] at this
            exact this (List.mem_cons_self _ _)
          · exact ih2
        · intro p hp
          rw [hloop] at hp
          rcases List.mem_cons.mp hp with rfl | hp'
          · exact ⟨m, List.mem_cons_self m ms, hdoc, rfl⟩
          · obtain ⟨mq, hmq, h1, h2⟩ := ih3 p hp'
            exact ⟨mq, List.mem_cons_of_mem m hmq, h1, h2⟩
        · intro mq hmq d hd
          rcases List.mem_cons.mp hmq with rfl | hmq'
          · right
            rw [hdoc] at hd
            cases hd
            rw [hloop]
            simp only [List.map_cons, List.mem_cons]
            left
            trivial
          · rcases ih4 mq hmq' d hd with hin | hin
            · rcases List.mem_cons.mp hin with heq | hin'
              · right
                rw [hloop, heq]
                simp only [List.map_cons, List.mem_cons]
                left
                rw [hkeyOf]
              · left
                exact hin'
            · right
              rw [hloop]
              simp only [List.map_cons, List.mem_cons]
              right
              exact hin

/-- C8 (amended): the deduplication key of `get_documents` is the string
`document_name + "|" + str(folder_name)`, not the pair itself: the output
carries pairwise-distinct keys, every output pair is the pair of some input
metadata, and every input metadata carrying a document name is represented
by its key in the output — so two entries are merged exactly when their
pipe-joined keys coincide, which is coarser than equality of the pairs
(distinct pairs collide when a document name contains a pipe, or a folder
is literally named None while another entry has no folder). -/
theorem get_documents_spec_C8 (ms : List (List (String × String))) :
    ((get_documents ms).map keyOf).Nodup ∧
    (∀ p ∈ get_documents ms, ∃ m ∈ ms, m.lookup "document_name" = some p.1 ∧
        m.lookup "folder_name" = p.2) ∧
    (∀ m ∈ ms, ∀ d, m.lookup "document_name" = some d →
        keyOf (d, m.lookup "folder_name") ∈ (get_documents ms).map keyOf) := by
  obtain ⟨h1, h2, h3, h4⟩ := getDocsLoop_spec ms []
  refine ⟨h2, h3, ?_⟩
  intro m hm d hd
  rcases h4 m hm d hd with hin | hin
  · simp at hin
  · exact hin

/-- Witness for `get_documents_spec_C8` on a two-chunk collection for one
document in one folder: the output keys are distinct, the single output
pair comes from the input, and the input metadata is represented. -/
theorem get_documents_spec_C8_witness :
    ((get_documents [[("document_name", "a"), ("folder_name", "f")],
        [("document_name", "a"), ("folder_name", "f")]]).map keyOf).Nodup ∧
    (∃ m ∈ [[("document_name", "a"), ("folder_name", "f")],
        [("document_name", "a"), ("folder_name", "f")]],
      m.lookup "document_name" = some "a" ∧ m.lookup "folder_name" = some "f") ∧
    keyOf ("a", some "f")
      ∈ (get_documents [[("document_name", "a"), ("folder_name", "f")],
          [("document_name", "a"), ("folder_name", "f")]]).map keyOf :=
  ⟨(get_documents_spec_C8 _).1,
   (get_documents_spec_C8 [[("document_name", "a"), ("folder_name", "f")],
        [("document_name", "a"), ("folder_name", "f")]]).2.1
     ("a", some "f") (by decide),
   (get_documents_spec_C8 [[("document_name", "a"), ("folder_name", "f")],
        [("document_name", "a"), ("folder_name", "f")]]).2.2
     [("document_name", "a"), ("folder_name", "f")] (by decide) "a" (by decide)⟩

/-- C8 counterexample: two entries whose `(document_name, folder_name)`
pairs differ — `("a|b", "c")` and `("a", "b|c")` — produce the same
pipe-joined key, so the second is merged away although the pairs are not
equal, refuting merged-iff-both-equal. -/
theorem get_documents_collision_counterexample_C8 :
    get_documents
      [[("document_name", "a|b"), ("folder_name", "c")],
       [("document_name", "a"), ("folder_name", "b|c")]]
      = [("a|b", some "c")] ∧
    (("a|b" : String), (some "c" : Option String)) ≠ ("a", some "b|c") :=
  ⟨by decide, by decide⟩

/-! ### Web content fetching (`web_content_fetcher.py`) -/

/-- The metadata built by `process_html_content` (lines 105-111). -/
def htmlMetadata (url domain title : String) : Meta :=
  [("source", MetaVal.s url.data), ("domain", MetaVal.s domain.data),
   ("title", MetaVal.s title.data), ("content_type", MetaVal.s "html".data),
   ("source_type", MetaVal.s "web".data)]

/-- The labelled section built for one followed link (line 234). -/
def sectionFor (title link : String) (clean : PyStr) : PyStr :=
  ("--- Content from " ++ title ++ " (" ++ link ++ ") ---\n\n").data
    ++ clean ++ "\n\n".data

/-- Python `"\x5cn".join(parts)`. -/
def joinNl : List PyStr → PyStr
  | [] => []
  | [p] => p
  | p :: ps => p ++ '\n' :: joinNl ps

/-- `follow_page_links` (lines 172-241): follow at most `maxLinks` links;
each link either contributes a cleaned labelled section or is skipped (a
fetch failure or non-HTML response — both `continue`), modelled by the
`linkFetch` oracle returning the linked title and clean text or nothing.
The contributions are newline-joined into ONE string. -/
def follow_page_links (linkFetch : String → Option (String × PyStr))
    (links : List String) (maxLinks : Nat) : PyStr :=
  if links = [] then []
  else joinNl ((links.take maxLinks).filterMap (fun link =>
    match linkFetch link with
    | none => none
    | some tc => some (sectionFor tc.1 link tc.2)))

/-- The HTML branch of `fetch_web_content` (lines 52-65), after
`process_html_content` produced the main text, the title and the link list:
when link-following is on and produced a non-empty combined string, the
string is appended to the content and the metadata additionally records
`includes_linked_content=True` and `linked_pages_count=len(linked_content)`
— the length of the combined STRING, as the source computes it. -/
def fetch_html (url domain title : String) (mainText : PyStr) (links : List String)
    (followLinks : Bool) (maxLinks : Nat)
    (linkFetch : String → Option (String × PyStr)) : PyStr × Meta × String :=
  let base := htmlMetadata url domain title
  if followLinks ∧ links ≠ [] then
    let linked := follow_page_links linkFetch links maxLinks
    if linked ≠ [] then
      (mainText ++ "\n\n--- LINKED CONTENT ---\n\n".data ++ linked,
       metaSet (metaSet base "includes_linked_content" (MetaVal.b true))
         "linked_pages_count" (MetaVal.n linked.length),
       "html")
    else (mainText, base, "html")
  else (mainText, base, "html")

/-- C9 evaluation at the failing input: one followed link contributes one
page of three characters of clean text; the metadata then carries
`includes_linked_content=True` and all the always-present fields, but
`linked_pages_count` is 42 — the character length of the combined
linked-content string — although exactly one linked page contributed. -/
theorem fetch_html_linked_count_C9 :
    ((fetch_html "http://x" "x" "T" ("main".data) ["http://x/a"] true 5
        (fun _ => some ("A", "xyz".data))).2.1.lookup "linked_pages_count")
      = some (MetaVal.n 42) ∧
    ((["http://x/a"] : List String).filterMap
        (fun l => (fun _ => some ("A", "xyz".data) :
          String → Option (String × PyStr)) l)).length = 1 ∧
    (42 : Nat) ≠ 1 ∧
    ((fetch_html "http://x" "x" "T" ("main".data) ["http://x/a"] true 5
        (fun _ => some ("A", "xyz".data))).2.1.lookup "includes_linked_content")
      = some (MetaVal.b true) ∧
    ((fetch_html "http://x" "x" "T" ("main".data) ["http://x/a"] true 5
        (fun _ => some ("A", "xyz".data))).2.1.lookup "source")
      = some (MetaVal.s "http://x".data) ∧
    ((fetch_html "http://x" "x" "T" ("main".data) ["http://x/a"] true 5
        (fun _ => some ("A", "xyz".data))).2.1.lookup "domain")
      = some (MetaVal.s "x".data) ∧
    ((fetch_html "http://x" "x" "T" ("main".data) ["http://x/a"] true 5
        (fun _ => some ("A", "xyz".data))).2.1.lookup "title")
      = some (MetaVal.s "T".data) ∧
    ((fetch_html "http://x" "x" "T" ("main".data) ["http://x/a"] true 5
        (fun _ => some ("A", "xyz".data))).2.1.lookup "content_type")
      = some (MetaVal.s "html".data) ∧
    ((fetch_html "http://x" "x" "T" ("main".data) ["http://x/a"] true 5
        (fun _ => some ("A", "xyz".data))).2.1.lookup "source_type")
      = some (MetaVal.s "web".data) := by
  refine ⟨by decide, by decide, by decide, by decide, by decide, by decide, by decide,
    by decide, by decide⟩

/-! ### Folder deletion (`chatbot_api.py`, `delete_folder`) -/

/-- The outcomes of the external calls `delete_folder` makes, in order:
the user-folder listing, the MongoDB folder-record removal, the collection
existence check, the collection content fetch, and the chunk deletion. -/
structure FolderDeleteEnv where
  userFolders : Except String (List String)
  mongoUpdate : Except String Nat
  collectionExists : Bool
  collGet : Except String (List (String × List (String × String)))
  collDelete : Except String Unit

def folderMsgNoColl (f : String) : String :=
  "Folder \x27" ++ f ++ "\x27 deleted successfully (no collection found)"

def folderMsgNoDocs (f : String) : String :=
  "Folder \x27" ++ f ++ "\x27 deleted successfully (no documents found)"

def folderMsgFull (f : String) : String :=
  "Folder \x27" ++ f ++ "\x27 and all its documents deleted successfully"

/-- The `delete_folder` endpoint (`chatbot_api.py`, lines 480-560).  The
MongoDB record removal runs in its own `try`/`except` whose outcome is
discarded either way; the whole vector-store block runs in another
`try`/`except` that swallows any store error and falls through to the final
success message; only a failure of the user-folder listing escapes to the
outer handler as a 500. -/
def delete_folder (env : FolderDeleteEnv) (folderName : String) : Except Nat String :=
  match env.userFolders with
  | .error _ => .error 500
  | .ok _folders =>
    if ¬env.collectionExists then .ok (folderMsgNoColl folderName)
    else
      match env.collGet with
      | .error _ => .ok (folderMsgFull folderName)
      | .ok entries =>
        if entries = [] then .ok (folderMsgNoDocs folderName)
        else
          if (entries.filter
              (fun p => metaGetD p.2 "folder_name" "" = folderName)).map Prod.fst ≠ [] then
            match env.collDelete with
            | .error _ => .ok (folderMsgFull folderName)
            | .ok _ => .ok (folderMsgFull folderName)
          else .ok (folderMsgFull folderName)

/-- The message `delete_folder` produces once the folder listing succeeded:
it depends only on the collection existence and content, never on the
MongoDB or chunk-deletion outcomes. -/
def delete_folder_result (ce : Bool)
    (cg : Except String (List (String × List (String × String))))
    (f : String) : String :=
  if ¬ce then folderMsgNoColl f
  else
    match cg with
    | .error _ => folderMsgFull f
    | .ok entries => if entries = [] then folderMsgNoDocs f else folderMsgFull f

theorem delete_folder_eq (fs : List String) (m : Except String Nat) (ce : Bool)
    (cg : Except String (List (String × List (String × String))))
    (cd : Except String Unit) (f : String) :
    delete_folder ⟨Except.ok fs, m, ce, cg, cd⟩ f
      = Except.ok (delete_folder_result ce cg f) := by
  cases ce with
  | false => rfl
  | true =>
    cases cg with
    | error e => rfl
    | ok entries =>
      by_cases he : entries = []
      · simp [delete_folder, delete_folder_result, he]
      · by_cases ht : (entries.filter
            (fun p => metaGetD p.2 "folder_name" "" = f)).map Prod.fst ≠ []
        · cases cd with
          | error e => simp [delete_folder, delete_folder_result, he, ht]
          | ok u => simp [delete_folder, delete_folder_result, he, ht]
        · simp [delete_folder, delete_folder_result, he, ht]

/-- C10: whenever the user-folder listing succeeds, `delete_folder` returns
a success message — for every outcome of the MongoDB record removal and of
the vector-store operations — and the response is identical whatever the
MongoDB and chunk-deletion outcomes are: those errors are caught and
discarded, so a success response does not imply the chunks were deleted and
the operation is not atomic. -/
theorem delete_folder_success_C10 (uf : Except String (List String)) (fs : List String)
    (m1 m2 : Except String Nat) (ce : Bool)
    (cg : Except String (List (String × List (String × String))))
    (cd1 cd2 : Except String Unit) (folderName : String)
    (h : uf = Except.ok fs) :
    (∃ msg, delete_folder ⟨uf, m1, ce, cg, cd1⟩ folderName = Except.ok msg) ∧
    delete_folder ⟨uf, m1, ce, cg, cd1⟩ folderName
      = delete_folder ⟨uf, m2, ce, cg, cd2⟩ folderName := by
  subst h
  refine ⟨⟨_, delete_folder_eq fs m1 ce cg cd1 folderName⟩, ?_⟩
  rw [delete_folder_eq fs m1 ce cg cd1 folderName,
    delete_folder_eq fs m2 ce cg cd2 folderName]

/-- Witness for `delete_folder_success_C10`: both the MongoDB removal and
the chunk deletion fail, yet the endpoint answers with the full success
message, identical to the all-success run. -/
theorem delete_folder_success_C10_witness :
    ((Except.ok ["f"] : Except String (List String)) = Except.ok ["f"]) ∧
    ((∃ msg, delete_folder ⟨Except.ok ["f"], Except.error "mongo down", true,
          Except.ok [("id0", [("folder_name", "f")])], Except.error "chroma down"⟩ "f"
        = Except.ok msg) ∧
      delete_folder ⟨Except.ok ["f"], Except.error "mongo down", true,
          Except.ok [("id0", [("folder_name", "f")])], Except.error "chroma down"⟩ "f"
        = delete_folder ⟨Except.ok ["f"], Except.ok 1, true,
            Except.ok [("id0", [("folder_name", "f")])], Except.ok ()⟩ "f") :=
  ⟨rfl,
   delete_folder_success_C10 (Except.ok ["f"]) ["f"] (Except.error "mongo down")
     (Except.ok 1) true (Except.ok [("id0", [("folder_name", "f")])])
     (Except.error "chroma down") (Except.ok ()) "f" rfl⟩

end DocVec
